import Mathlib

/-!
# Verification of the `gen` static-site compiler

A shallow embedding of the two-pass content pipeline (the version of
`main.go` that builds a page registry, resolves backlinks, then renders):
string helpers from Go's `strings`/`path/filepath` packages, the path
mapper, the recursive content walk (`parseDirectoryContent`), the
backlink-resolution pass and the render pass from `main`, and a
failure-injected variant used for the error-handling properties.

Go strings are modelled as Lean `String` (lists of characters); the
markdown converter and the href extractor are external collaborators and
are taken as function parameters.
-/

namespace Gen

/-- ASCII lower-casing of a character, as `strings.ToLower` acts on the
ASCII paths handled by this program (codepoints 65-90 shift by 32). -/
def lowerChar (c : Char) : Char :=
  if 65 ≤ c.toNat ∧ c.toNat ≤ 90 then Char.ofNat (c.toNat + 32) else c

/-- `strings.ToLower` on ASCII strings. -/
def goToLower (s : String) : String := ⟨s.data.map lowerChar⟩

/-- The space-to-underscore substitution of a single character, used by
`strings.Replace(s, " ", "_", -1)`. -/
def spaceChar (c : Char) : Char := if c = ' ' then '_' else c

/-- `strings.Replace(s, " ", "_", -1)`: every space becomes an underscore. -/
def goSpaces (s : String) : String := ⟨s.data.map spaceChar⟩

/-- Character-list core of `strings.Replace(s, old, new, 1)`: replace the
first (leftmost) occurrence of `old` by `new`, leave the rest unchanged. -/
def replaceFirstL (old new : List Char) : List Char → List Char
  | [] => []
  | c :: rest =>
    if old.isPrefixOf (c :: rest) then new ++ (c :: rest).drop old.length
    else c :: replaceFirstL old new rest

/-- `strings.Replace(s, old, new, 1)`. -/
def goReplaceFirst (s old new : String) : String :=
  ⟨replaceFirstL old.data new.data s.data⟩

/-- Helper for `filepath.Ext`: the input is the reversed character list of
the path; `acc` collects the characters already passed (restored to source
order); stops at a slash or at the first dot from the right. -/
def goExtAux (acc : List Char) : List Char → List Char
  | [] => []
  | c :: rest =>
    if c = '/' then []
    else if c = '.' then '.' :: acc
    else goExtAux (c :: acc) rest

/-- `filepath.Ext`: the suffix starting at the final dot in the final
slash-separated element; empty if there is no dot. -/
def goExt (s : String) : String := ⟨goExtAux [] s.data.reverse⟩

/-- `strings.TrimSuffix`. -/
def goTrimSuffix (s suf : String) : String :=
  if suf.data.isSuffixOf s.data then ⟨s.data.take (s.data.length - suf.data.length)⟩
  else s

/-- The output-path computation of `parseDirectoryContent` (lines 140-145):
lower-case the whole path, delete the first occurrence of `"content/"`,
replace spaces by underscores, replace the first occurrence of the
substring `".md"` by `".html"`, and prefix `"public/"`. -/
def mapOutPath (path : String) : String :=
  let o1 := goToLower path
  let o2 := goReplaceFirst o1 "content/" ""
  let o3 := goSpaces o2
  let o4 := goReplaceFirst o3 ".md" ".html"
  "public/" ++ o4

/-- Stripping the content-root prefix as the spec words it: remove a
leading `"content/"` when present. -/
def stripContentRoot (s : String) : String :=
  if ("content/").data.isPrefixOf s.data then ⟨s.data.drop 8⟩ else s

/-- The Path Mapper exactly as claim C3 words it: strip the content-root
prefix, lower-case, spaces to underscores, replace the extension with
`".html"` if and only if the extension is `".md"`, prefix the output root.
Written from the spec sentence, to be compared with `mapOutPath`. -/
def specMapOutPath (p : String) : String :=
  let o1 := stripContentRoot p
  let o2 := goToLower o1
  let o3 := goSpaces o2
  let o4 := if goExt o3 == ".md" then goTrimSuffix o3 ".md" ++ ".html" else o3
  "public/" ++ o4

/-- The spec's mapper rules amended only where the counterexample forces
it: the extension rule becomes "replace the first occurrence of the
substring `.md` by `.html`" (the source replaces a substring, and does not
test the extension). -/
def specMapOutPathAmended (p : String) : String :=
  let o1 := stripContentRoot p
  let o2 := goToLower o1
  let o3 := goSpaces o2
  let o4 := goReplaceFirst o3 ".md" ".html"
  "public/" ++ o4

/-- Display-name computation for a file (lines 169 and 175-177): the file
name without its extension; the literal name `"index"` is replaced by the
inherited `parent` name. -/
def pageName (fileName parent : String) : String :=
  let base := goTrimSuffix fileName (goExt fileName)
  if base == "index" then parent else base

/-- The lower-casing and space-substitution steps of the mapper, without
prefix deletion, extension substitution or output-root prefixing. -/
def normalizeCore (s : String) : String := goSpaces (goToLower s)

/-- Registry key of a page (line 192): the page's output path with the
first occurrence of `"/content"` deleted. -/
def regKey (outPath : String) : String := goReplaceFirst outPath "/content" ""

/-- Backlink key contributed by a source page (lines 114 and 118): its
output path with the first occurrence of `"public"` deleted. -/
def blSrcKey (outPath : String) : String := goReplaceFirst outPath "public" ""

/-! ## Character-level lemmas -/

theorem toNat_charOfNat_of_valid {n : Nat} (h : n.isValidChar) :
    (Char.ofNat n).toNat = n := by
  unfold Char.ofNat
  rw [dif_pos h]
  rfl

theorem lowerChar_toNat_not_upper (c : Char) :
    ¬ (65 ≤ (lowerChar c).toNat ∧ (lowerChar c).toNat ≤ 90) := by
  unfold lowerChar
  by_cases h : 65 ≤ c.toNat ∧ c.toNat ≤ 90
  · rw [if_pos h]
    have hv : (c.toNat + 32).isValidChar := by
      left
      omega
    rw [toNat_charOfNat_of_valid hv]
    omega
  · rw [if_neg h]
    exact h

theorem lowerChar_idem (c : Char) : lowerChar (lowerChar c) = lowerChar c := by
  conv_lhs => rw [lowerChar]
  rw [if_neg (lowerChar_toNat_not_upper c)]

theorem spaceChar_ne_space (c : Char) : spaceChar c ≠ ' ' := by
  unfold spaceChar
  by_cases h : c = ' '
  · rw [if_pos h]
    decide
  · rw [if_neg h]
    exact h

theorem lowerChar_spaceChar_lowerChar (c : Char) :
    lowerChar (spaceChar (lowerChar c)) = spaceChar (lowerChar c) := by
  unfold spaceChar
  by_cases h : lowerChar c = ' '
  · rw [if_pos h]
    decide
  · rw [if_neg h]
    exact lowerChar_idem c

theorem spaceChar_idem (c : Char) : spaceChar (spaceChar c) = spaceChar c := by
  conv_lhs => rw [spaceChar]
  rw [if_neg (spaceChar_ne_space c)]

/-! ## C9 — idempotence of the Path Mapper -/

/-- C9 counterexample: the full Path Mapper is not idempotent; on the
already-mapped path `public/a.html` it prepends a second output root. -/
theorem mapper_not_idempotent :
    mapOutPath (mapOutPath "content/a.md") ≠ mapOutPath "content/a.md" := by
  decide

/-- C9 (amended): the normalization core of the Path Mapper (lower-casing
followed by space substitution) is idempotent; the full mapper is not,
because it unconditionally prefixes the output root (and re-replaces
`.md` substrings). -/
theorem normalizeCore_idempotent (s : String) :
    normalizeCore (normalizeCore s) = normalizeCore s := by
  unfold normalizeCore goSpaces goToLower
  apply congrArg String.mk
  simp only [List.map_map, List.map_inj_left]
  intro c _
  simp only [Function.comp]
  rw [lowerChar_spaceChar_lowerChar, spaceChar_idem]

/-! ## C8 — index display-name inheritance -/

/-- C8 counterexample: the file `Index.md` has base name `Index`, equal to
the reserved token `index` under case-insensitive comparison, yet its
display name is not overwritten with the inherited name `Blog`. -/
theorem index_case_insensitive_fails :
    goToLower (goTrimSuffix "Index.md" (goExt "Index.md")) = "index" ∧
      pageName "Index.md" "Blog" ≠ "Blog" := by
  decide

/-- C8 (amended): the display name is overwritten with the inherited name
exactly when the base name is the literal `"index"` — the comparison in
the source is case-sensitive. -/
theorem index_name_override (fileName parent : String) :
    (goTrimSuffix fileName (goExt fileName) = "index" →
      pageName fileName parent = parent) ∧
    (goTrimSuffix fileName (goExt fileName) ≠ "index" →
      pageName fileName parent = goTrimSuffix fileName (goExt fileName)) := by
  constructor
  · intro h
    unfold pageName
    rw [h]
    rfl
  · intro h
    unfold pageName
    rw [if_neg (by simpa using h)]

theorem index_name_override_witness :
    pageName "index.md" "Blog" = "Blog" ∧ pageName "post.md" "Blog" = "post" :=
  ⟨(index_name_override "index.md" "Blog").1 (by decide),
   (index_name_override "post.md" "Blog").2 (by decide)⟩

/-! ## C3 — Path Mapper rules -/

theorem replaceFirstL_at_head (old new t : List Char) (h : old ≠ []) :
    replaceFirstL old new (old ++ t) = new ++ t := by
  match old, h with
  | o :: os, _ =>
    rw [List.cons_append, replaceFirstL]
    rw [if_pos (List.isPrefixOf_iff_prefix.mpr
      (by rw [← List.cons_append]; exact List.prefix_append _ _))]
    rw [← List.cons_append, List.drop_left]

theorem map_lowerChar_contentRoot :
    ("content/").data.map lowerChar = ("content/").data := by
  decide

/-- C3 counterexample: on `content/a.md.txt` (extension `.txt`, but with a
`.md` substring) the source mapper yields `public/a.html.txt`, while the
spec's rules — which substitute only when the extension is `.md` — yield
`public/a.md.txt`. -/
theorem mapper_spec_rules_fail :
    mapOutPath "content/a.md.txt" ≠ specMapOutPath "content/a.md.txt" := by
  decide

/-- C3 (amended): for every path under the content root, the mapper strips
the root prefix, lower-cases, substitutes spaces, replaces the first
occurrence of the substring `.md` by `.html` (not the extension-conditional
rule of the claim), and prefixes the output root. -/
theorem mapper_amended (p : String) (h : ("content/").data.isPrefixOf p.data) :
    mapOutPath p = specMapOutPathAmended p := by
  obtain ⟨d⟩ := p
  obtain ⟨t, ht⟩ := List.isPrefixOf_iff_prefix.mp h
  have ht2 : ("content/").data ++ t = d := ht
  have h1 : goReplaceFirst (goToLower ⟨d⟩) "content/" "" = goToLower ⟨t⟩ := by
    apply congrArg String.mk
    show replaceFirstL ("content/").data ("" : String).data (List.map lowerChar d) =
      List.map lowerChar t
    rw [← ht2, List.map_append, map_lowerChar_contentRoot]
    exact replaceFirstL_at_head _ _ _ (by decide)
  have h2 : stripContentRoot ⟨d⟩ = ⟨t⟩ := by
    unfold stripContentRoot
    rw [if_pos h]
    apply congrArg String.mk
    show List.drop 8 d = t
    rw [← ht2, show (8 : Nat) = ("content/").data.length from by decide, List.drop_left]
  show "public/" ++
      goReplaceFirst (goSpaces (goReplaceFirst (goToLower ⟨d⟩) "content/" "")) ".md" ".html" =
    "public/" ++
      goReplaceFirst (goSpaces (goToLower (stripContentRoot ⟨d⟩))) ".md" ".html"
  rw [h1, h2]

theorem mapper_amended_witness :
    mapOutPath "content/A b.md" = specMapOutPathAmended "content/A b.md" :=
  mapper_amended "content/A b.md" (by decide)

/-! ## The page registry and the two passes -/

/-- The `page` struct (lines 20-30). `template.HTML` fields are strings;
the Go map `Backlinks` is modelled as its lookup function, so that the
order in which entries are written is immaterial, as for a Go map.
`PType` models the Go field `Type` (a Lean keyword). -/
structure Page where
  Path : String
  OutPath : String
  Name : String
  PType : String
  Backlinks : String → Option String
  Content : String
  Navigation : String
  Footer : String
  StaticImports : String

/-- A node of the content tree handed to the walk by `os.ReadDir`: the
order of a `children` list is the enumeration order of that directory. -/
inductive Inode where
  | file (name : String) (content : String)
  | dir (name : String) (children : List Inode)

/-- `NewPage` (lines 53-80) on the happy path: zero-valued `Type`,
`Content` and `Footer`, an empty backlink map, and the navigation and
static-import partials (`nav`, `statics`) read from the template files. -/
def NewPage (path outPath name nav statics : String) : Page :=
  { Path := path, OutPath := outPath, Name := name, PType := "",
    Backlinks := fun _ => none, Content := "", Navigation := nav,
    Footer := "", StaticImports := statics }

/-- The file branch of `parseDirectoryContent` (lines 162-192): construct
the page, apply the index-name override, classify by `filepath.Ext`
(`.html` → `HTML`, `.md` → convert and `MD`, anything else keeps the empty
`Type` and is copied), and return the registry insertion of line 192.
`md` is the opaque markdown-to-HTML converter. -/
def compileFile (md : String → String) (nav statics dirPath parent name content : String) :
    String × Page :=
  let path := dirPath ++ "/" ++ name
  let outPath := mapOutPath path
  let p0 := NewPage path outPath (pageName name parent) nav statics
  let e := goExt name
  let p :=
    if e == ".html" then { p0 with PType := "HTML" }
    else if e == ".md" then { p0 with Content := md content, PType := "MD" }
    else p0
  (regKey outPath, p)

mutual

/-- One iteration of the entry loop of `parseDirectoryContent` (lines
139-194), happy path: a file contributes its registry insertion; a
directory recurses, passing the current directory name down as the
inherited display name unless the current directory is the content root
(lines 155-160). -/
def walkInode (md : String → String) (nav statics dirPath parent : String) :
    Inode → List (String × Page)
  | .file name content => [compileFile md nav statics dirPath parent name content]
  | .dir name children =>
    walkList md nav statics (dirPath ++ "/" ++ name)
      (if dirPath == "content" then parent else dirPath) children

/-- `parseDirectoryContent` (lines 132-195) over a directory listing,
happy path: the sequence of registry insertions, in loop order. -/
def walkList (md : String → String) (nav statics dirPath parent : String) :
    List Inode → List (String × Page)
  | [] => []
  | i :: rest =>
    walkInode md nav statics dirPath parent i ++ walkList md nav statics dirPath parent rest

end

/-- Lookup in the Go map obtained by inserting the pairs of `l` in list
order: a later insertion overwrites an earlier one with the same key. -/
def lookupA : List (String × Page) → String → Option Page
  | [], _ => none
  | e :: rest, k =>
    match lookupA rest k with
    | some v => some v
    | none => if e.1 == k then some e.2 else none

/-- The entry list of that map: for every key the last pair inserted with
it, kept in the relative order of the surviving insertions. -/
def dedupLast : List (String × Page) → List (String × Page)
  | [] => []
  | e :: rest =>
    if rest.any (fun e2 => e2.1 == e.1) then dedupLast rest else e :: dedupLast rest

/-- Observable events of a run: registry insertions, backlink recordings,
unresolved-link logs, template-partial reads and failures, opaque-file
copies, per-file skips, and render-pass outcomes. -/
inductive Ev where
  | insert (key : String)
  | record (targetKey blKey name : String)
  | unresolved (p : String)
  | readTpl (path : String)
  | tplFail (path : String)
  | copied (src dst : String)
  | skipRead (outPath : String)
  | skipPage (path : String)
  | mkdirFail (path : String)
  | rendered (path : String)
  | renderSkip (path : String)
  deriving DecidableEq

/-- Overwriting one key of a page's backlink map (the map assignment of
lines 114 and 118). -/
def blUpdate (bk name : String) (p : Page) : Page :=
  { p with Backlinks := fun k => if k == bk then some name else p.Backlinks k }

/-- `targetPage.Backlinks[bk] = name` (lines 114 and 118): overwrite one
key of the target entry's backlink map, in place in the registry. -/
def recordBacklink (tkey bk name : String) : List (String × Page) → List (String × Page)
  | [] => []
  | e :: rest =>
    (if e.1 == tkey then (e.1, blUpdate bk name e.2) else e) :: recordBacklink tkey bk name rest

/-- Resolution of one extracted link of source page `sp` (lines 111-122):
direct lookup of `public<link>`, else the directory-index fallback
`public<link>/index.html`, else an unresolved-link log. -/
def resolveLink (st : List (String × Page)) (sp : Page) (link : String) :
    List (String × Page) × List Ev :=
  let p1 := "public" ++ link
  match lookupA st p1 with
  | some _ =>
    (recordBacklink p1 (blSrcKey sp.OutPath) sp.Name st,
     [Ev.record p1 (blSrcKey sp.OutPath) sp.Name])
  | none =>
    let p2 := "public" ++ link ++ "/index.html"
    match lookupA st p2 with
    | some _ =>
      (recordBacklink p2 (blSrcKey sp.OutPath) sp.Name st,
       [Ev.record p2 (blSrcKey sp.OutPath) sp.Name])
    | none => (st, [Ev.unresolved p2])

/-- All links of one source page, in extractor order (lines 109-123);
`ext` is the opaque link extractor (`reHref.FindAllStringSubmatch`). -/
def resolvePage (ext : String → List String) (st : List (String × Page)) (sp : Page) :
    List (String × Page) × List Ev :=
  (ext sp.Content).foldl
    (fun acc l =>
      let r := resolveLink acc.1 sp l
      (r.1, acc.2 ++ r.2))
    (st, [])

/-- The backlink-loop body for one registry entry (lines 106-125): pages
with empty `Type` (entries of opaque files) are not scanned for links. -/
def blStepFull (ext : String → List String) (acc : List (String × Page) × List Ev)
    (e : String × Page) : List (String × Page) × List Ev :=
  if e.2.PType == "" then acc
  else
    let r := resolvePage ext acc.1 e.2
    (r.1, acc.2 ++ r.2)

/-- The Backlink Resolver pass (lines 106-125): iterate the registry's
entries, mutating backlink maps in place. -/
def backlinkPass (ext : String → List String) (m : List (String × Page)) :
    List (String × Page) × List Ev :=
  m.foldl (blStepFull ext) (m, [])

/-- The happy-path run of `main` (lines 102-129) up to the end of the
backlink pass: compile the whole tree into the registry, then resolve;
the trace lists every registry insertion, followed by the resolver's
events. -/
def mainRun (md : String → String) (ext : String → List String)
    (nav statics top : String) (tree : List Inode) :
    List (String × Page) × List Ev :=
  let reg := walkList md nav statics "content" top tree
  let r := backlinkPass ext (dedupLast reg)
  (r.1, reg.map (fun e => Ev.insert e.1) ++ r.2)

/-! ## Failure oracle and the render pass -/

/-- Success oracle for the file-system and template operations of a run,
keyed by the path each operation touches; `true` means success. The two
startup template parses are single flags. -/
structure IOOracle where
  readDirOk : String → Bool
  mkdirOk : String → Bool
  readOk : String → Bool
  navOk : Bool
  staticOk : Bool
  openOk : String → Bool
  createOk : String → Bool
  copyOk : String → Bool
  parseOk : String → Bool
  execOk : String → Bool
  mdTplOk : Bool
  footerTplOk : Bool

/-- The oracle of a run in which every operation succeeds. -/
def allOk : IOOracle :=
  { readDirOk := fun _ => true, mkdirOk := fun _ => true, readOk := fun _ => true,
    navOk := true, staticOk := true, openOk := fun _ => true,
    createOk := fun _ => true, copyOk := fun _ => true, parseOk := fun _ => true,
    execOk := fun _ => true, mdTplOk := true, footerTplOk := true }

/-- `renderMd` (lines 211-225): create the output file, then execute the
markdown layout into it; each failure is logged and skips this page only. -/
def renderMd (o : IOOracle) (p : Page) : List Ev :=
  if o.createOk p.OutPath then
    if o.execOk p.OutPath then [Ev.rendered p.OutPath] else [Ev.renderSkip p.OutPath]
  else [Ev.renderSkip p.OutPath]

/-- `renderHtml` (lines 227-247): parse the source file itself as a
template, create the output file, execute; each failure skips this page
only. -/
def renderHtml (o : IOOracle) (p : Page) : List Ev :=
  if o.parseOk p.Path then
    if o.createOk p.OutPath then
      if o.execOk p.OutPath then [Ev.rendered p.OutPath] else [Ev.renderSkip p.OutPath]
    else [Ev.renderSkip p.OutPath]
  else [Ev.renderSkip p.OutPath]

/-- `page.Render` (lines 32-44): expand the footer template into the
`Footer` field (its execute error is ignored), then dispatch on `Type`;
`fe` is the opaque footer-template expansion. Returns the updated page
and the file events of the dispatched branch. -/
def Render (o : IOOracle) (fe : Page → String) (p : Page) : Page × List Ev :=
  let p2 := { p with Footer := fe p }
  match p.PType with
  | "HTML" => (p2, renderHtml o p2)
  | "MD" => (p2, renderMd o p2)
  | _ => (p2, [])

/-! ## C10 — Render on a page of neither rendered type -/

/-- C10: rendering a page whose `Type` is neither `"HTML"` nor `"MD"`
(such as the registry entry of an opaque file, whose `Type` is `""`)
performs no file operation at all, and changes only the `Footer` field of
the page — so bytes copied during the compile pass are never overwritten
by the render pass. -/
theorem render_only_footer_on_opaque (o : IOOracle) (fe : Page → String) (p : Page)
    (h1 : p.PType ≠ "HTML") (h2 : p.PType ≠ "MD") :
    Render o fe p = ({ p with Footer := fe p }, []) := by
  unfold Render
  split
  · exact absurd ‹_› h1
  · exact absurd ‹_› h2
  · rfl

theorem render_only_footer_on_opaque_witness :
    Render allOk (fun _ => "footer")
        (NewPage "content/readme.txt" "public/readme.txt" "readme" "n" "s") =
      ({ NewPage "content/readme.txt" "public/readme.txt" "readme" "n" "s" with
          Footer := "footer" }, []) :=
  render_only_footer_on_opaque allOk (fun _ => "footer") _ (by decide) (by decide)

/-! ## A concrete link extractor for concrete runs -/

/-- Characters of a captured href value, up to the closing quote. -/
def takeUntilQuote : List Char → List Char
  | [] => []
  | c :: rest => if c = '"' then [] else c :: takeUntilQuote rest

/-- Concrete link extractor used in the concrete runs below: captures
every substring standing between `href="` and the next quote and starting
with a slash. On the plain anchor-tag bodies used in those runs this is
exactly what the source's `reHref` regular expression extracts. -/
def scanHrefs : List Char → List (List Char)
  | [] => []
  | c :: rest =>
    if ("href=\"").data.isPrefixOf (c :: rest) then
      let cap := takeUntilQuote ((c :: rest).drop 6)
      (if cap.head? = some '/' then [cap] else []) ++ scanHrefs rest
    else scanHrefs rest

/-- String-level wrapper of `scanHrefs`. -/
def extractHrefs (s : String) : List String :=
  (scanHrefs s.data).map fun l => ⟨l⟩

/-! ## Registry and backlink lemmas -/

theorem lookupA_recordBacklink (tkey bk name : String) (st : List (String × Page))
    (k : String) :
    lookupA (recordBacklink tkey bk name st) k =
      (lookupA st k).map fun p => if k == tkey then blUpdate bk name p else p := by
  induction st with
  | nil => rfl
  | cons e rest ih =>
    simp only [recordBacklink, lookupA, ih]
    cases hrest : lookupA rest k <;>
      by_cases h1 : e.1 = k <;> by_cases h2 : e.1 = tkey <;>
        simp_all [beq_iff_eq]

theorem isSome_lookupA_recordBacklink (tkey bk name : String)
    (st : List (String × Page)) (k : String) :
    (lookupA (recordBacklink tkey bk name st) k).isSome = (lookupA st k).isSome := by
  rw [lookupA_recordBacklink]
  cases lookupA st k <;> rfl

/-! ## C5 — directory-index fallback -/

/-- C5: when an extracted link has no exact match in the registry but the
page `<target>/index.html` is registered, the resolver falls back to it
and that page records the backlink of the source page. -/
theorem directory_index_fallback (st : List (String × Page)) (sp : Page)
    (link : String) (tp : Page)
    (h1 : lookupA st ("public" ++ link) = none)
    (h2 : lookupA st ("public" ++ link ++ "/index.html") = some tp) :
    (resolveLink st sp link).1 =
      recordBacklink ("public" ++ link ++ "/index.html") (blSrcKey sp.OutPath) sp.Name st ∧
    (lookupA (resolveLink st sp link).1 ("public" ++ link ++ "/index.html")).map
        (fun p => p.Backlinks (blSrcKey sp.OutPath)) = some (some sp.Name) := by
  have hres : resolveLink st sp link =
      (recordBacklink ("public" ++ link ++ "/index.html") (blSrcKey sp.OutPath) sp.Name st,
       [Ev.record ("public" ++ link ++ "/index.html") (blSrcKey sp.OutPath) sp.Name]) := by
    simp only [resolveLink, h1, h2]
  refine ⟨by rw [hres], ?_⟩
  rw [hres]
  show (lookupA (recordBacklink _ _ _ st) _).map _ = _
  rw [lookupA_recordBacklink, h2]
  simp [blUpdate]

/-! ## C1 — backlinks only after the full registry exists -/

/-- Registry-insertion event test. -/
def Ev.isInsert : Ev → Bool
  | .insert _ => true
  | _ => false

/-- Backlink-recording event test. -/
def Ev.isRecord : Ev → Bool
  | .record _ _ _ => true
  | _ => false

theorem resolveLink_events_cases (st : List (String × Page)) (sp : Page) (l : String) :
    ∀ ev ∈ (resolveLink st sp l).2,
      (∃ t, ev = Ev.record t (blSrcKey sp.OutPath) sp.Name) ∨
        (∃ q, ev = Ev.unresolved q) := by
  intro ev hev
  simp only [resolveLink] at hev
  cases hl1 : lookupA st ("public" ++ l) with
  | some v =>
    rw [hl1] at hev
    simp only [List.mem_singleton] at hev
    exact Or.inl ⟨_, hev⟩
  | none =>
    rw [hl1] at hev
    cases hl2 : lookupA st ("public" ++ l ++ "/index.html") with
    | some v =>
      rw [hl2] at hev
      simp only [List.mem_singleton] at hev
      exact Or.inl ⟨_, hev⟩
    | none =>
      rw [hl2] at hev
      simp only [List.mem_singleton] at hev
      exact Or.inr ⟨_, hev⟩

theorem resolvePage_go_events (sp : Page) (P : Ev → Prop)
    (hP : ∀ st2 l, ∀ ev ∈ (resolveLink st2 sp l).2, P ev) :
    ∀ (links : List String) (st : List (String × Page)) (evs : List Ev),
      (∀ ev ∈ evs, P ev) →
      ∀ ev ∈ (links.foldl
          (fun acc l =>
            let r := resolveLink acc.1 sp l
            (r.1, acc.2 ++ r.2)) (st, evs)).2, P ev := by
  intro links
  induction links with
  | nil => intro st evs hevs; exact hevs
  | cons l ls ih =>
    intro st evs hevs
    rw [List.foldl_cons]
    refine ih (resolveLink st sp l).1 (evs ++ (resolveLink st sp l).2) ?_
    intro ev hev
    rcases List.mem_append.mp hev with h | h
    · exact hevs ev h
    · exact hP st l ev h

theorem resolvePage_events_cases (ext : String → List String) (st : List (String × Page))
    (sp : Page) :
    ∀ ev ∈ (resolvePage ext st sp).2,
      (∃ t, ev = Ev.record t (blSrcKey sp.OutPath) sp.Name) ∨
        (∃ q, ev = Ev.unresolved q) := by
  intro ev hev
  exact resolvePage_go_events sp _ (fun st2 l => resolveLink_events_cases st2 sp l)
    (ext sp.Content) st [] (by intro ev h; cases h) ev hev

theorem backlinkPass_go_events (ext : String → List String) (P : Ev → Prop)
    (Q : String × Page → Prop)
    (hP : ∀ st e, Q e → e.2.PType ≠ "" → ∀ ev ∈ (resolvePage ext st e.2).2, P ev) :
    ∀ (entries : List (String × Page)) (st : List (String × Page)) (evs : List Ev),
      (∀ e ∈ entries, Q e) →
      (∀ ev ∈ evs, P ev) →
      ∀ ev ∈ (entries.foldl (blStepFull ext) (st, evs)).2, P ev := by
  intro entries
  induction entries with
  | nil => intro st evs _ hevs; exact hevs
  | cons e es ih =>
    intro st evs hQ hevs
    rw [List.foldl_cons]
    show ∀ ev ∈ (es.foldl (blStepFull ext) (blStepFull ext (st, evs) e)).2, P ev
    unfold blStepFull
    by_cases he : e.2.PType == ""
    · rw [if_pos he]
      exact ih st evs (fun x hx => hQ x (List.mem_cons_of_mem e hx)) hevs
    · rw [if_neg he]
      refine ih _ _ (fun x hx => hQ x (List.mem_cons_of_mem e hx)) ?_
      intro ev hev
      rcases List.mem_append.mp hev with h | h
      · exact hevs ev h
      · exact hP st e (hQ e (List.mem_cons_self e es)) (by simpa using he) ev h

theorem backlinkPass_events_not_insert (ext : String → List String)
    (m : List (String × Page)) :
    ∀ ev ∈ (backlinkPass ext m).2, ev.isInsert = false := by
  intro ev hev
  refine backlinkPass_go_events ext (fun ev => ev.isInsert = false) (fun _ => True)
    ?_ m m [] (fun _ _ => trivial) (by intro x h; cases h) ev hev
  intro st e _ _ ev2 hev2
  rcases resolvePage_events_cases ext st e.2 ev2 hev2 with ⟨t, rfl⟩ | ⟨q, rfl⟩ <;> rfl

/-- C1: in every run, every backlink-record event of the trace comes after
every registry-insert event — the Backlink Resolver touches no page's
backlink map until `parseDirectoryContent` has inserted every page. -/
theorem backlinks_after_full_registry (md : String → String) (ext : String → List String)
    (nav statics top : String) (tree : List Inode) (i j : Nat)
    (hi : i < (mainRun md ext nav statics top tree).2.length)
    (hj : j < (mainRun md ext nav statics top tree).2.length)
    (hIns : ((mainRun md ext nav statics top tree).2.get ⟨i, hi⟩).isInsert = true)
    (hRec : ((mainRun md ext nav statics top tree).2.get ⟨j, hj⟩).isRecord = true) :
    i < j := by
  have htr : (mainRun md ext nav statics top tree).2 =
      (walkList md nav statics "content" top tree).map (fun e => Ev.insert e.1) ++
        (backlinkPass ext (dedupLast (walkList md nav statics "content" top tree))).2 := rfl
  set A := (walkList md nav statics "content" top tree).map (fun e => Ev.insert e.1) with hA
  set B := (backlinkPass ext (dedupLast (walkList md nav statics "content" top tree))).2
    with hB
  have hmemA : ∀ ev ∈ A, ev.isRecord = false := by
    intro ev hev
    rcases List.mem_map.mp hev with ⟨e, _, rfl⟩
    rfl
  have hmemB : ∀ ev ∈ B, ev.isInsert = false :=
    backlinkPass_events_not_insert ext _
  have hiA : i < A.length := by
    by_contra hcon
    push_neg at hcon
    have hlt : i - A.length < B.length := by
      have h2 := hi
      rw [htr, List.length_append] at h2
      omega
    have hgr : (mainRun md ext nav statics top tree).2.get ⟨i, hi⟩ =
        B.get ⟨i - A.length, hlt⟩ := by
      simp only [htr, List.get_eq_getElem]
      exact List.getElem_append_right hcon
    rw [hgr] at hIns
    have hv := hmemB _ (List.get_mem B _ hlt)
    rw [hv] at hIns
    cases hIns
  have hjA : A.length ≤ j := by
    by_contra hcon
    push_neg at hcon
    have hgr : (mainRun md ext nav statics top tree).2.get ⟨j, hj⟩ =
        A.get ⟨j, hcon⟩ := by
      simp only [htr, List.get_eq_getElem]
      exact List.getElem_append_left hcon
    rw [hgr] at hRec
    have hv := hmemA _ (List.get_mem A _ hcon)
    rw [hv] at hRec
    cases hRec
  omega

theorem backlinks_after_full_registry_witness : (0 : Nat) < 2 :=
  backlinks_after_full_registry id extractHrefs "n" "s" "O"
    [Inode.file "a.md" "<a href=\"/b.html\">x</a>", Inode.file "b.md" "hi"]
    0 2 (by decide) (by decide) (by decide) (by decide)

/-! ## C2 — opaque files and the registry -/

/-- C2 counterexample: the opaque file `readme.txt` IS inserted into the
page registry by the walk (line 192 runs for every file), and it can take
part in backlink resolution as a target: the run records the backlink of
`page.md` on it. -/
theorem opaque_registered_counterexample :
    (lookupA
        (walkList id "n" "s" "content" "O"
          [Inode.file "readme.txt" "hi",
           Inode.file "page.md" "<a href=\"/readme.txt\">r</a>"])
        "public/readme.txt").isSome = true ∧
    ((lookupA
        (mainRun id extractHrefs "n" "s" "O"
          [Inode.file "readme.txt" "hi",
           Inode.file "page.md" "<a href=\"/readme.txt\">r</a>"]).1
        "public/readme.txt").map
      (fun p => p.Backlinks "/page.html")) = some (some "page") := by
  exact ⟨by decide, by decide⟩

/-- C2 (amended): a file that is neither markdown nor templated HTML IS
inserted into the registry, as a page whose `Type` stays empty; such pages
are never link-resolution sources — every backlink recorded during the
resolver pass names a source page of non-empty `Type` — though they may be
resolution targets. -/
theorem opaque_amended :
    (∀ (md : String → String) (nav statics dirPath parent name content : String),
        goExt name ≠ ".html" → goExt name ≠ ".md" →
        walkInode md nav statics dirPath parent (Inode.file name content) =
          [(regKey (mapOutPath (dirPath ++ "/" ++ name)),
            NewPage (dirPath ++ "/" ++ name) (mapOutPath (dirPath ++ "/" ++ name))
              (pageName name parent) nav statics)]) ∧
    (∀ (ext : String → List String) (m : List (String × Page)) (t bk nm : String),
        Ev.record t bk nm ∈ (backlinkPass ext m).2 →
        ∃ e, e ∈ m ∧ e.2.PType ≠ "" ∧ bk = blSrcKey e.2.OutPath ∧ nm = e.2.Name) := by
  constructor
  · intro md nav statics dirPath parent name content h1 h2
    show [compileFile md nav statics dirPath parent name content] = _
    simp only [compileFile]
    rw [if_neg (by simpa using h1), if_neg (by simpa using h2)]
  · intro ext m t bk nm hmem
    have hall := backlinkPass_go_events ext
      (fun ev => ∀ t2 bk2 nm2, ev = Ev.record t2 bk2 nm2 →
        ∃ e, e ∈ m ∧ e.2.PType ≠ "" ∧ bk2 = blSrcKey e.2.OutPath ∧ nm2 = e.2.Name)
      (fun e => e ∈ m)
      (by
        intro st e hQ hty ev hev
        rcases resolvePage_events_cases ext st e.2 ev hev with ⟨t3, rfl⟩ | ⟨q, rfl⟩
        · intro t2 bk2 nm2 heq
          cases heq
          exact ⟨e, hQ, hty, rfl, rfl⟩
        · intro t2 bk2 nm2 heq
          cases heq)
      m m [] (fun e he => he) (by intro ev h; cases h)
      (Ev.record t bk nm) hmem
    exact hall t bk nm rfl

theorem opaque_amended_witness :
    walkInode id "n" "s" "content" "O" (Inode.file "readme.txt" "hi") =
      [(regKey (mapOutPath ("content" ++ "/" ++ "readme.txt")),
        NewPage ("content" ++ "/" ++ "readme.txt")
          (mapOutPath ("content" ++ "/" ++ "readme.txt"))
          (pageName "readme.txt" "O") "n" "s")] ∧
    ∃ e,
      e ∈ dedupLast (walkList id "n" "s" "content" "O"
          [Inode.file "readme.txt" "hi",
           Inode.file "page.md" "<a href=\"/readme.txt\">r</a>"]) ∧
      e.2.PType ≠ "" ∧ "/page.html" = blSrcKey e.2.OutPath ∧ "page" = e.2.Name :=
  ⟨opaque_amended.1 id "n" "s" "content" "O" "readme.txt" "hi" (by decide) (by decide),
   opaque_amended.2 extractHrefs _ "public/readme.txt" "/page.html" "page" (by decide)⟩

theorem directory_index_fallback_witness :
    (lookupA
        (resolveLink
          [("public/blog/index.html",
            NewPage "content/blog/index.md" "public/blog/index.html" "blog" "n" "s")]
          (NewPage "content/blog/post.md" "public/blog/post.html" "post" "n" "s")
          "/blog").1
        "public/blog/index.html").map
      (fun p => p.Backlinks "/blog/post.html") = some (some "post") := by
  have h := directory_index_fallback
    [("public/blog/index.html",
      NewPage "content/blog/index.md" "public/blog/index.html" "blog" "n" "s")]
    (NewPage "content/blog/post.md" "public/blog/post.html" "post" "n" "s")
    "/blog"
    (NewPage "content/blog/index.md" "public/blog/index.html" "blog" "n" "s")
    rfl rfl
  exact h.2

/-! ## C4 — listing-order independence of backlink resolution -/

/-- The registry key at which one extracted link resolves, if any (the
two lookups of lines 112-117). -/
def resolveKeyOpt (st : List (String × Page)) (link : String) : Option String :=
  if (lookupA st ("public" ++ link)).isSome then some ("public" ++ link)
  else if (lookupA st ("public" ++ link ++ "/index.html")).isSome then
    some ("public" ++ link ++ "/index.html")
  else none

/-- State part of `resolvePage`. -/
def resolvePageSt (ext : String → List String) (st : List (String × Page)) (sp : Page) :
    List (String × Page) :=
  (ext sp.Content).foldl (fun st2 l => (resolveLink st2 sp l).1) st

/-- State part of the backlink-loop body `blStepFull`. -/
def blStep (ext : String → List String) (st : List (String × Page)) (e : String × Page) :
    List (String × Page) :=
  if e.2.PType == "" then st else resolvePageSt ext st e.2

/-- Recording a list of resolved targets for one source page. -/
def applyTargets (bk name : String) (ts : List String) (st : List (String × Page)) :
    List (String × Page) :=
  ts.foldl (fun st2 t => recordBacklink t bk name st2) st

theorem resolveLink_fst (st : List (String × Page)) (sp : Page) (link : String) :
    (resolveLink st sp link).1 =
      match resolveKeyOpt st link with
      | some t => recordBacklink t (blSrcKey sp.OutPath) sp.Name st
      | none => st := by
  simp only [resolveLink, resolveKeyOpt]
  cases h1 : lookupA st ("public" ++ link) with
  | some v => simp [h1]
  | none =>
    cases h2 : lookupA st ("public" ++ link ++ "/index.html") with
    | some v => simp [h1, h2]
    | none => simp [h1, h2]

theorem fst_foldl_resolve (sp : Page) (links : List String)
    (st : List (String × Page)) (evs : List Ev) :
    (links.foldl (fun acc l =>
        let r := resolveLink acc.1 sp l
        (r.1, acc.2 ++ r.2)) (st, evs)).1 =
      links.foldl (fun st2 l => (resolveLink st2 sp l).1) st := by
  induction links generalizing st evs with
  | nil => rfl
  | cons l ls ih =>
    rw [List.foldl_cons, List.foldl_cons]
    exact ih _ _

theorem fst_resolvePage (ext : String → List String) (st : List (String × Page))
    (sp : Page) :
    (resolvePage ext st sp).1 = resolvePageSt ext st sp :=
  fst_foldl_resolve sp (ext sp.Content) st []

theorem fst_blStepFull (ext : String → List String) (st : List (String × Page))
    (evs : List Ev) (e : String × Page) :
    (blStepFull ext (st, evs) e).1 = blStep ext st e := by
  unfold blStepFull blStep
  by_cases he : e.2.PType == ""
  · rw [if_pos he, if_pos he]
  · rw [if_neg he, if_neg he]
    exact fst_resolvePage ext st e.2

theorem fst_foldl_blStep (ext : String → List String) (es : List (String × Page))
    (st : List (String × Page)) (evs : List Ev) :
    (es.foldl (blStepFull ext) (st, evs)).1 = es.foldl (blStep ext) st := by
  induction es generalizing st evs with
  | nil => rfl
  | cons e rest ih =>
    rw [List.foldl_cons, List.foldl_cons]
    calc (rest.foldl (blStepFull ext) (blStepFull ext (st, evs) e)).1
        = (rest.foldl (blStepFull ext)
            ((blStepFull ext (st, evs) e).1, (blStepFull ext (st, evs) e).2)).1 := rfl
      _ = rest.foldl (blStep ext) (blStepFull ext (st, evs) e).1 := ih _ _
      _ = rest.foldl (blStep ext) (blStep ext st e) := by rw [fst_blStepFull]

theorem fst_backlinkPass (ext : String → List String) (m : List (String × Page)) :
    (backlinkPass ext m).1 = m.foldl (blStep ext) m :=
  fst_foldl_blStep ext m m []

/-- Two registry states offering the same keys. -/
def samePresence (st1 st2 : List (String × Page)) : Prop :=
  ∀ k, (lookupA st1 k).isSome = (lookupA st2 k).isSome

theorem samePresence_recordBacklink (t bk nm : String) (st : List (String × Page)) :
    samePresence (recordBacklink t bk nm st) st :=
  fun k => isSome_lookupA_recordBacklink t bk nm st k

theorem resolveKeyOpt_congr {st1 st2 : List (String × Page)} (h : samePresence st1 st2)
    (link : String) : resolveKeyOpt st1 link = resolveKeyOpt st2 link := by
  unfold resolveKeyOpt
  rw [h ("public" ++ link), h ("public" ++ link ++ "/index.html")]

theorem resolve_foldl_normal (sp : Page) (links : List String)
    (st : List (String × Page)) :
    links.foldl (fun st2 l => (resolveLink st2 sp l).1) st =
      applyTargets (blSrcKey sp.OutPath) sp.Name (links.filterMap (resolveKeyOpt st)) st := by
  induction links generalizing st with
  | nil => rfl
  | cons l ls ih =>
    rw [List.foldl_cons, List.filterMap_cons, resolveLink_fst]
    cases hk : resolveKeyOpt st l with
    | none => exact ih st
    | some t =>
      have hpres : samePresence (recordBacklink t (blSrcKey sp.OutPath) sp.Name st) st :=
        samePresence_recordBacklink _ _ _ _
      have hfun : resolveKeyOpt (recordBacklink t (blSrcKey sp.OutPath) sp.Name st) =
          resolveKeyOpt st := funext fun l2 => resolveKeyOpt_congr hpres l2
      rw [ih (recordBacklink t (blSrcKey sp.OutPath) sp.Name st), hfun]
      rfl

theorem resolvePageSt_normal (ext : String → List String) (st : List (String × Page))
    (sp : Page) :
    resolvePageSt ext st sp =
      applyTargets (blSrcKey sp.OutPath) sp.Name
        ((ext sp.Content).filterMap (resolveKeyOpt st)) st :=
  resolve_foldl_normal sp (ext sp.Content) st

theorem blUpdate_comm (bk1 n1 bk2 n2 : String) (hbk : bk1 ≠ bk2) (p : Page) :
    blUpdate bk1 n1 (blUpdate bk2 n2 p) = blUpdate bk2 n2 (blUpdate bk1 n1 p) := by
  unfold blUpdate
  congr 1
  funext k
  by_cases hk1 : k == bk1 <;> by_cases hk2 : k == bk2 <;> simp_all

theorem recordBacklink_comm (t1 bk1 n1 t2 bk2 n2 : String) (hbk : bk1 ≠ bk2)
    (st : List (String × Page)) :
    recordBacklink t1 bk1 n1 (recordBacklink t2 bk2 n2 st) =
      recordBacklink t2 bk2 n2 (recordBacklink t1 bk1 n1 st) := by
  induction st with
  | nil => rfl
  | cons e rest ih =>
    simp only [recordBacklink]
    refine congrArg₂ List.cons ?_ ih
    by_cases h1 : e.1 == t1 <;> by_cases h2 : e.1 == t2 <;>
      simp [h1, h2, blUpdate_comm bk1 n1 bk2 n2 hbk e.2]

theorem samePresence_applyTargets (bk nm : String) (ts : List String)
    (st : List (String × Page)) :
    samePresence (applyTargets bk nm ts st) st := by
  induction ts generalizing st with
  | nil => intro k; rfl
  | cons t rest ih =>
    intro k
    show (lookupA (applyTargets bk nm rest (recordBacklink t bk nm st)) k).isSome = _
    rw [ih (recordBacklink t bk nm st) k, isSome_lookupA_recordBacklink]

theorem recordBacklink_applyTargets_comm (t bk1 n1 bk2 n2 : String) (hbk : bk1 ≠ bk2)
    (ts : List String) (st : List (String × Page)) :
    recordBacklink t bk1 n1 (applyTargets bk2 n2 ts st) =
      applyTargets bk2 n2 ts (recordBacklink t bk1 n1 st) := by
  induction ts generalizing st with
  | nil => rfl
  | cons u us ih =>
    show recordBacklink t bk1 n1 (applyTargets bk2 n2 us (recordBacklink u bk2 n2 st)) = _
    rw [ih (recordBacklink u bk2 n2 st), recordBacklink_comm t bk1 n1 u bk2 n2 hbk st]
    rfl

theorem applyTargets_comm (bk1 n1 bk2 n2 : String) (hbk : bk1 ≠ bk2)
    (ts1 ts2 : List String) (st : List (String × Page)) :
    applyTargets bk1 n1 ts1 (applyTargets bk2 n2 ts2 st) =
      applyTargets bk2 n2 ts2 (applyTargets bk1 n1 ts1 st) := by
  induction ts1 generalizing st with
  | nil => rfl
  | cons u us ih =>
    show applyTargets bk1 n1 us (recordBacklink u bk1 n1 (applyTargets bk2 n2 ts2 st)) = _
    rw [recordBacklink_applyTargets_comm u bk1 n1 bk2 n2 hbk ts2 st]
    exact ih (recordBacklink u bk1 n1 st)

theorem blStep_empty (ext : String → List String) (st : List (String × Page))
    (e : String × Page) (h : (e.2.PType == "") = true) : blStep ext st e = st := by
  unfold blStep
  rw [if_pos h]

theorem blStep_scan (ext : String → List String) (st : List (String × Page))
    (e : String × Page) (h : ¬ (e.2.PType == "") = true) :
    blStep ext st e = resolvePageSt ext st e.2 := by
  unfold blStep
  rw [if_neg h]

theorem blStep_comm (ext : String → List String) (e1 e2 : String × Page)
    (hbk : blSrcKey e1.2.OutPath ≠ blSrcKey e2.2.OutPath)
    (z : List (String × Page)) :
    blStep ext (blStep ext z e1) e2 = blStep ext (blStep ext z e2) e1 := by
  by_cases h1 : e1.2.PType == "" <;> by_cases h2 : e2.2.PType == ""
  · rw [blStep_empty ext z e1 h1, blStep_empty ext z e2 h2, blStep_empty ext z e1 h1]
  · rw [blStep_empty ext z e1 h1, blStep_empty ext (blStep ext z e2) e1 h1]
  · rw [blStep_empty ext z e2 h2, blStep_empty ext (blStep ext z e1) e2 h2]
  · rw [blStep_scan ext z e1 h1, blStep_scan ext z e2 h2,
      blStep_scan ext (resolvePageSt ext z e1.2) e2 h2,
      blStep_scan ext (resolvePageSt ext z e2.2) e1 h1]
    rw [resolvePageSt_normal ext z e1.2, resolvePageSt_normal ext z e2.2]
    rw [resolvePageSt_normal ext _ e2.2, resolvePageSt_normal ext _ e1.2]
    have hc1 : resolveKeyOpt (applyTargets (blSrcKey e1.2.OutPath) e1.2.Name
        ((ext e1.2.Content).filterMap (resolveKeyOpt z)) z) = resolveKeyOpt z :=
      funext fun l => resolveKeyOpt_congr (samePresence_applyTargets _ _ _ z) l
    have hc2 : resolveKeyOpt (applyTargets (blSrcKey e2.2.OutPath) e2.2.Name
        ((ext e2.2.Content).filterMap (resolveKeyOpt z)) z) = resolveKeyOpt z :=
      funext fun l => resolveKeyOpt_congr (samePresence_applyTargets _ _ _ z) l
    rw [hc1, hc2]
    exact applyTargets_comm _ _ _ _ (fun h => hbk h.symm) _ _ z

theorem recordBacklink_eq_map (t bk nm : String) (st : List (String × Page)) :
    recordBacklink t bk nm st =
      st.map (fun e => if e.1 == t then (e.1, blUpdate bk nm e.2) else e) := by
  induction st with
  | nil => rfl
  | cons e rest ih => simp only [recordBacklink, List.map_cons, ih]

theorem recordBacklink_perm {st1 st2 : List (String × Page)} (h : st1.Perm st2)
    (t bk nm : String) :
    (recordBacklink t bk nm st1).Perm (recordBacklink t bk nm st2) := by
  rw [recordBacklink_eq_map, recordBacklink_eq_map]
  exact h.map _

theorem keys_recordBacklink (t bk nm : String) (st : List (String × Page)) :
    (recordBacklink t bk nm st).map Prod.fst = st.map Prod.fst := by
  induction st with
  | nil => rfl
  | cons e rest ih =>
    simp only [recordBacklink, List.map_cons, ih]
    by_cases h : e.1 == t <;> simp [h]

theorem keys_applyTargets (bk nm : String) (ts : List String)
    (st : List (String × Page)) :
    (applyTargets bk nm ts st).map Prod.fst = st.map Prod.fst := by
  induction ts generalizing st with
  | nil => rfl
  | cons t rest ih =>
    show (applyTargets bk nm rest (recordBacklink t bk nm st)).map Prod.fst = _
    rw [ih (recordBacklink t bk nm st), keys_recordBacklink]

theorem applyTargets_perm (bk nm : String) (ts : List String)
    {st1 st2 : List (String × Page)} (h : st1.Perm st2) :
    (applyTargets bk nm ts st1).Perm (applyTargets bk nm ts st2) := by
  induction ts generalizing st1 st2 with
  | nil => exact h
  | cons t rest ih => exact ih (recordBacklink_perm h t bk nm)

theorem keys_blStep (ext : String → List String) (st : List (String × Page))
    (e : String × Page) : (blStep ext st e).map Prod.fst = st.map Prod.fst := by
  by_cases h : e.2.PType == ""
  · rw [blStep_empty ext st e h]
  · rw [blStep_scan ext st e h, resolvePageSt_normal, keys_applyTargets]

theorem keys_foldl_blStep (ext : String → List String) (es : List (String × Page))
    (st : List (String × Page)) :
    (es.foldl (blStep ext) st).map Prod.fst = st.map Prod.fst := by
  induction es generalizing st with
  | nil => rfl
  | cons e rest ih =>
    rw [List.foldl_cons, ih (blStep ext st e), keys_blStep]

theorem lookupA_eq_none_iff (st : List (String × Page)) (k : String) :
    lookupA st k = none ↔ ∀ e ∈ st, e.1 ≠ k := by
  induction st with
  | nil => simp [lookupA]
  | cons e rest ih =>
    rw [lookupA]
    cases hr : lookupA rest k with
    | some v =>
      simp only [hr]
      constructor
      · intro h; cases h
      · intro h
        exact absurd (ih.mpr (fun x hx => h x (List.mem_cons_of_mem e hx))) (by rw [hr]; simp)
    | none =>
      simp only [hr]
      constructor
      · intro h
        intro x hx
        rcases List.mem_cons.mp hx with rfl | hx2
        · intro hk
          rw [if_pos (beq_iff_eq.mpr hk)] at h
          cases h
        · exact (ih.mp hr) x hx2
      · intro h
        rw [if_neg]
        simp only [beq_iff_eq]
        exact h e (List.mem_cons_self e rest)

theorem lookupA_eq_some_mem {st : List (String × Page)} {k : String} {v : Page}
    (h : lookupA st k = some v) : (k, v) ∈ st := by
  induction st with
  | nil => cases h
  | cons e rest ih =>
    rw [lookupA] at h
    cases hr : lookupA rest k with
    | some w =>
      rw [hr] at h
      cases h
      exact List.mem_cons_of_mem e (ih hr)
    | none =>
      rw [hr] at h
      by_cases hek : e.1 == k
      · rw [if_pos hek] at h
        cases h
        have he : e = (k, e.2) := by
          have : e.1 = k := beq_iff_eq.mp hek
          cases e
          simp_all
        rw [← he]
        exact List.mem_cons_self e rest
      · rw [if_neg hek] at h
        cases h

theorem lookupA_eq_some_of_mem {st : List (String × Page)} {k : String} {v : Page}
    (hnd : (st.map Prod.fst).Nodup) (hm : (k, v) ∈ st) : lookupA st k = some v := by
  induction st with
  | nil => cases hm
  | cons e rest ih =>
    rw [List.map_cons, List.nodup_cons] at hnd
    rw [lookupA]
    rcases List.mem_cons.mp hm with heq | hmem
    · have hk : e.1 = k := by rw [← heq]
      have hv : e.2 = v := by rw [← heq]
      have hn : lookupA rest k = none := by
        rw [lookupA_eq_none_iff]
        intro x hx hxk
        exact hnd.1 (by rw [hk, ← hxk]; exact List.mem_map_of_mem Prod.fst hx)
      rw [hn, if_pos (beq_iff_eq.mpr hk), hv]
    · rw [ih hnd.2 hmem]

theorem lookupA_perm {st1 st2 : List (String × Page)} (h : st1.Perm st2)
    (hnd : (st1.map Prod.fst).Nodup) (k : String) :
    lookupA st1 k = lookupA st2 k := by
  have hnd2 : (st2.map Prod.fst).Nodup := ((h.map Prod.fst).nodup_iff).mp hnd
  cases h1 : lookupA st1 k with
  | some v =>
    exact (lookupA_eq_some_of_mem hnd2 (h.mem_iff.mp (lookupA_eq_some_mem h1))).symm
  | none =>
    symm
    rw [lookupA_eq_none_iff] at h1 ⊢
    intro e he
    exact h1 e (h.mem_iff.mpr he)

theorem resolvePageSt_perm (ext : String → List String)
    {st1 st2 : List (String × Page)} (h : st1.Perm st2)
    (hnd : (st1.map Prod.fst).Nodup) (sp : Page) :
    (resolvePageSt ext st1 sp).Perm (resolvePageSt ext st2 sp) := by
  rw [resolvePageSt_normal, resolvePageSt_normal]
  have hk : resolveKeyOpt st1 = resolveKeyOpt st2 := funext fun l => by
    unfold resolveKeyOpt
    rw [lookupA_perm h hnd, lookupA_perm h hnd]
  rw [hk]
  exact applyTargets_perm _ _ _ h

theorem blStep_perm (ext : String → List String) {st1 st2 : List (String × Page)}
    (h : st1.Perm st2) (hnd : (st1.map Prod.fst).Nodup) (e : String × Page) :
    (blStep ext st1 e).Perm (blStep ext st2 e) := by
  by_cases hty : e.2.PType == ""
  · rw [blStep_empty ext st1 e hty, blStep_empty ext st2 e hty]
    exact h
  · rw [blStep_scan ext st1 e hty, blStep_scan ext st2 e hty]
    exact resolvePageSt_perm ext h hnd e.2

theorem foldl_blStep_perm (ext : String → List String) (es : List (String × Page))
    {st1 st2 : List (String × Page)} (h : st1.Perm st2)
    (hnd : (st1.map Prod.fst).Nodup) :
    (es.foldl (blStep ext) st1).Perm (es.foldl (blStep ext) st2) := by
  induction es generalizing st1 st2 with
  | nil => exact h
  | cons e rest ih =>
    rw [List.foldl_cons, List.foldl_cons]
    exact ih (blStep_perm ext h hnd e) (by rw [keys_blStep]; exact hnd)

theorem dedupLast_eq_self {st : List (String × Page)}
    (hnd : (st.map Prod.fst).Nodup) : dedupLast st = st := by
  induction st with
  | nil => rfl
  | cons e rest ih =>
    rw [List.map_cons, List.nodup_cons] at hnd
    rw [dedupLast, if_neg ?hne, ih hnd.2]
    case hne =>
      intro hany
      rcases List.any_eq_true.mp hany with ⟨x, hx, hq⟩
      exact hnd.1 (by rw [← beq_iff_eq.mp hq]; exact List.mem_map_of_mem Prod.fst hx)

/-- Reordering of a directory listing: the same set of files, enumerated
in a different order, recursively in every directory. A matched file is
unchanged; a matched directory keeps its name and has reordered
children. -/
inductive TreePerm : List Inode → List Inode → Prop
  | nil : TreePerm [] []
  | consFile (name content : String) {l1 l2 : List Inode} :
      TreePerm l1 l2 →
      TreePerm (Inode.file name content :: l1) (Inode.file name content :: l2)
  | consDir (name : String) {c1 c2 l1 l2 : List Inode} :
      TreePerm c1 c2 → TreePerm l1 l2 →
      TreePerm (Inode.dir name c1 :: l1) (Inode.dir name c2 :: l2)
  | swap (a b : Inode) (l : List Inode) : TreePerm (a :: b :: l) (b :: a :: l)
  | trans {l1 l2 l3 : List Inode} : TreePerm l1 l2 → TreePerm l2 l3 → TreePerm l1 l3

theorem walkList_perm (md : String → String) (nav statics : String)
    {l1 l2 : List Inode} (h : TreePerm l1 l2) :
    ∀ (dirPath parent : String),
      (walkList md nav statics dirPath parent l1).Perm
        (walkList md nav statics dirPath parent l2) := by
  induction h with
  | nil => intro dirPath parent; exact List.Perm.refl _
  | consFile name content _ ih =>
    intro dirPath parent
    exact (List.Perm.refl _).append (ih dirPath parent)
  | consDir name _ _ ihc ihrest =>
    intro dirPath parent
    exact (ihc (dirPath ++ "/" ++ name)
      (if dirPath == "content" then parent else dirPath)).append (ihrest dirPath parent)
  | swap a b l =>
    intro dirPath parent
    show (walkInode md nav statics dirPath parent a ++
        (walkInode md nav statics dirPath parent b ++
          walkList md nav statics dirPath parent l)).Perm
      (walkInode md nav statics dirPath parent b ++
        (walkInode md nav statics dirPath parent a ++
          walkList md nav statics dirPath parent l))
    rw [← List.append_assoc, ← List.append_assoc]
    exact List.perm_append_comm.append_right _
  | trans _ _ ih1 ih2 =>
    intro dirPath parent
    exact (ih1 dirPath parent).trans (ih2 dirPath parent)

theorem compileFile_key (md : String → String)
    (nav statics dirPath parent name content : String) :
    (compileFile md nav statics dirPath parent name content).1 =
      regKey (compileFile md nav statics dirPath parent name content).2.OutPath ∧
    ∃ r : String,
      (compileFile md nav statics dirPath parent name content).2.OutPath =
        "public/" ++ r := by
  have hout : (compileFile md nav statics dirPath parent name content).2.OutPath =
      mapOutPath (dirPath ++ "/" ++ name) := by
    simp only [compileFile]
    by_cases h1 : goExt name == ".html"
    · rw [if_pos h1]
      rfl
    · rw [if_neg h1]
      by_cases h2 : goExt name == ".md"
      · rw [if_pos h2]
        rfl
      · rw [if_neg h2]
        rfl
  constructor
  · rw [hout]
    rfl
  · rw [hout]
    exact ⟨_, rfl⟩

mutual

theorem walkInode_entry (md : String → String) (nav statics : String) :
    ∀ (i : Inode) (dirPath parent : String),
      ∀ e ∈ walkInode md nav statics dirPath parent i,
        e.1 = regKey e.2.OutPath ∧ ∃ r : String, e.2.OutPath = "public/" ++ r
  | .file name content, dirPath, parent => by
      intro e he
      rcases List.mem_singleton.mp he with rfl
      exact compileFile_key md nav statics dirPath parent name content
  | .dir name children, dirPath, parent => by
      intro e he
      exact walkList_entry md nav statics children (dirPath ++ "/" ++ name)
        (if dirPath == "content" then parent else dirPath) e he

theorem walkList_entry (md : String → String) (nav statics : String) :
    ∀ (l : List Inode) (dirPath parent : String),
      ∀ e ∈ walkList md nav statics dirPath parent l,
        e.1 = regKey e.2.OutPath ∧ ∃ r : String, e.2.OutPath = "public/" ++ r
  | [], _, _ => by intro e he; cases he
  | i :: rest, dirPath, parent => by
      intro e he
      rcases List.mem_append.mp he with h | h
      · exact walkInode_entry md nav statics i dirPath parent e h
      · exact walkList_entry md nav statics rest dirPath parent e h

end

theorem blSrcKey_public (r : String) : blSrcKey ("public/" ++ r) = "/" ++ r := by
  unfold blSrcKey goReplaceFirst
  apply congrArg String.mk
  rw [String.data_append]
  rw [show ("public/").data = ("public").data ++ (['/'] : List Char) from by decide]
  rw [List.append_assoc]
  rw [replaceFirstL_at_head _ _ _ (by decide)]
  rfl

theorem string_append_cancel {a b c : String} (h : a ++ b = a ++ c) : b = c := by
  obtain ⟨bd⟩ := b
  obtain ⟨cd⟩ := c
  apply congrArg String.mk
  have hd := congrArg String.data h
  rw [String.data_append, String.data_append] at hd
  exact List.append_cancel_left hd

/-- C4 (amended): for a fixed set of content files whose mapped registry
keys do not collide, any two enumeration orders of the content tree yield
a registry with identical pages and identical backlink maps after the
resolver pass. (Without the no-collision hypothesis the claim fails:
see the counterexample, where the surviving page of a key collision
depends on enumeration order.) -/
theorem backlink_result_order_independent (md : String → String)
    (ext : String → List String) (nav statics top : String)
    (t1 t2 : List Inode) (hperm : TreePerm t1 t2)
    (hnd : ((walkList md nav statics "content" top t1).map Prod.fst).Nodup) :
    ∀ k, lookupA (mainRun md ext nav statics top t1).1 k =
      lookupA (mainRun md ext nav statics top t2).1 k := by
  intro k
  have hw : (walkList md nav statics "content" top t1).Perm
      (walkList md nav statics "content" top t2) :=
    walkList_perm md nav statics hperm "content" top
  have hnd2 : ((walkList md nav statics "content" top t2).map Prod.fst).Nodup :=
    ((hw.map Prod.fst).nodup_iff).mp hnd
  have hm1 : (mainRun md ext nav statics top t1).1 =
      (walkList md nav statics "content" top t1).foldl (blStep ext)
        (walkList md nav statics "content" top t1) := by
    show (backlinkPass ext (dedupLast (walkList md nav statics "content" top t1))).1 = _
    rw [dedupLast_eq_self hnd, fst_backlinkPass]
  have hm2 : (mainRun md ext nav statics top t2).1 =
      (walkList md nav statics "content" top t2).foldl (blStep ext)
        (walkList md nav statics "content" top t2) := by
    show (backlinkPass ext (dedupLast (walkList md nav statics "content" top t2))).1 = _
    rw [dedupLast_eq_self hnd2, fst_backlinkPass]
  rw [hm1, hm2]
  have hinv := walkList_entry md nav statics t1 "content" top
  have hcomm : ∀ x ∈ walkList md nav statics "content" top t1,
      ∀ y ∈ walkList md nav statics "content" top t1, ∀ z,
      blStep ext (blStep ext z x) y = blStep ext (blStep ext z y) x := by
    intro x hx y hy z
    by_cases hxy : x = y
    · rw [hxy]
    · have hk : x.1 ≠ y.1 := fun hk1 => hxy (List.inj_on_of_nodup_map hnd hx hy hk1)
      obtain ⟨hkx, rx, hrx⟩ := hinv x hx
      obtain ⟨hky, ry, hry⟩ := hinv y hy
      have hop : x.2.OutPath ≠ y.2.OutPath := by
        intro hop
        exact hk (by rw [hkx, hky, hop])
      have hbk : blSrcKey x.2.OutPath ≠ blSrcKey y.2.OutPath := by
        rw [hrx, hry, blSrcKey_public, blSrcKey_public]
        intro hcon
        exact hop (by rw [hrx, hry, string_append_cancel hcon])
      exact blStep_comm ext x y hbk z
  have stepA := hw.foldl_eq' hcomm (walkList md nav statics "content" top t1)
  rw [stepA]
  exact lookupA_perm (foldl_blStep_perm ext _ hw hnd)
    (by rw [keys_foldl_blStep]; exact hnd) k

/-- C4 counterexample: `content/A b.md` and `content/a_b.md` collide at
`public/a_b.html`; swapping their enumeration order changes which page
survives, and with it the backlink map the page `t.md` ends with. -/
theorem order_dependence_counterexample :
    TreePerm
      [Inode.file "A b.md" "<a href=\"/t.html\">q</a>", Inode.file "a_b.md" "x",
        Inode.file "t.md" "y"]
      [Inode.file "a_b.md" "x", Inode.file "A b.md" "<a href=\"/t.html\">q</a>",
        Inode.file "t.md" "y"] ∧
    (lookupA (mainRun id extractHrefs "n" "s" "O"
        [Inode.file "A b.md" "<a href=\"/t.html\">q</a>", Inode.file "a_b.md" "x",
          Inode.file "t.md" "y"]).1 "public/t.html").map
        (fun p => p.Backlinks "/a_b.html") ≠
      (lookupA (mainRun id extractHrefs "n" "s" "O"
        [Inode.file "a_b.md" "x", Inode.file "A b.md" "<a href=\"/t.html\">q</a>",
          Inode.file "t.md" "y"]).1 "public/t.html").map
        (fun p => p.Backlinks "/a_b.html") :=
  ⟨TreePerm.swap _ _ _, by decide⟩

theorem backlink_result_order_independent_witness :
    lookupA (mainRun id extractHrefs "n" "s" "O"
        [Inode.file "a.md" "x", Inode.file "b.md" "y"]).1 "public/a.html" =
      lookupA (mainRun id extractHrefs "n" "s" "O"
        [Inode.file "b.md" "y", Inode.file "a.md" "x"]).1 "public/a.html" :=
  backlink_result_order_independent id extractHrefs "n" "s" "O"
    [Inode.file "a.md" "x", Inode.file "b.md" "y"]
    [Inode.file "b.md" "y", Inode.file "a.md" "x"]
    (TreePerm.swap _ _ _) (by decide) "public/a.html"

/-! ## Failure-injected walk (`parseDirectoryContent` with IO outcomes) -/

mutual

/-- One entry of the loop of `parseDirectoryContent` (lines 139-194) with
failure injection. A file: read the source (failure logs and skips, lines
163-167), read the navigation and static partials in `NewPage` (failure
logs and skips, lines 169-173), classify; an opaque file is copied, and
any `copyFile` failure is `log.Fatal` (lines 249-266), modelled as `none`.
A directory: `os.MkdirAll` failure logs and skips the subtree (lines
147-153); then the recursive call begins with `os.ReadDir`, whose failure
is `log.Fatal` (lines 133-136). -/
def walkFLInode (o : IOOracle) (md : String → String)
    (nav statics dirPath parent : String) :
    Inode → Option (List (String × Page)) × List Ev
  | .file name content =>
    let path := dirPath ++ "/" ++ name
    let outPath := mapOutPath path
    if o.readOk path = false then (some [], [Ev.skipRead outPath])
    else if o.navOk = false then (some [], [Ev.skipPage path])
    else if o.staticOk = false then
      (some [], [Ev.readTpl "template/navigation.html", Ev.skipPage path])
    else
      let ins := compileFile md nav statics dirPath parent name content
      let evs := [Ev.readTpl "template/navigation.html",
        Ev.readTpl "template/static.html"]
      if goExt name == ".html" then (some [ins], evs ++ [Ev.insert ins.1])
      else if goExt name == ".md" then (some [ins], evs ++ [Ev.insert ins.1])
      else
        if o.openOk path = false then (none, evs)
        else if o.createOk outPath = false then (none, evs)
        else if o.copyOk path = false then (none, evs)
        else (some [ins], evs ++ [Ev.copied path outPath, Ev.insert ins.1])
  | .dir name children =>
    let path := dirPath ++ "/" ++ name
    let outPath := mapOutPath path
    if o.mkdirOk outPath = false then (some [], [Ev.mkdirFail outPath])
    else if o.readDirOk path = false then (none, [])
    else
      walkFLList o md nav statics path
        (if dirPath == "content" then parent else dirPath) children

/-- The entry loop with failure injection: a fatal outcome of one entry
ends the run, a skipped entry does not. -/
def walkFLList (o : IOOracle) (md : String → String)
    (nav statics dirPath parent : String) :
    List Inode → Option (List (String × Page)) × List Ev
  | [] => (some [], [])
  | i :: rest =>
    match walkFLInode o md nav statics dirPath parent i with
    | (none, t1) => (none, t1)
    | (some r1, t1) =>
      match walkFLList o md nav statics dirPath parent rest with
      | (none, t2) => (none, t1 ++ t2)
      | (some r2, t2) => (some (r1 ++ r2), t1 ++ t2)

end

/-- `parseDirectoryContent(directory, parent)` with failure injection:
`os.ReadDir` first (its failure is fatal), then the entry loop. -/
def walkFLDir (o : IOOracle) (md : String → String)
    (nav statics dirPath parent : String) (children : List Inode) :
    Option (List (String × Page)) × List Ev :=
  if o.readDirOk dirPath = false then (none, [])
  else walkFLList o md nav statics dirPath parent children

/-- The render pass of `main` (lines 127-129) with failure injection:
every registry entry is rendered, each independently of the others. -/
def renderAll (o : IOOracle) (fe : Page → String) (m : List (String × Page)) :
    List (String × Page) × List Ev :=
  (m.map (fun e => (e.1, (Render o fe e.2).1)),
   m.flatMap (fun e => (Render o fe e.2).2))

/-- `main` (lines 82-130) with failure injection: parse the markdown and
footer templates (absence of either returns before any processing), walk
the content tree, resolve backlinks, render. Returns the final registry
(`none` when the run aborted) and the full event trace. -/
def mainFL (o : IOOracle) (md : String → String) (ext : String → List String)
    (fe : Page → String) (nav statics top : String) (tree : List Inode) :
    Option (List (String × Page)) × List Ev :=
  if o.mdTplOk = false then (none, [Ev.tplFail "template/markdown.html"])
  else if o.footerTplOk = false then
    (none, [Ev.readTpl "template/markdown.html", Ev.tplFail "template/footer.html"])
  else
    let startup := [Ev.readTpl "template/markdown.html",
      Ev.readTpl "template/footer.html"]
    match walkFLDir o md nav statics "content" top tree with
    | (none, t) => (none, startup ++ t)
    | (some reg, t) =>
      let bl := backlinkPass ext (dedupLast reg)
      let rd := renderAll o fe bl.1
      (some rd.1, startup ++ t ++ bl.2 ++ rd.2)

mutual

/-- Number of files under one inode, at every depth. -/
def inodeFileCount : Inode → Nat
  | .file _ _ => 1
  | .dir _ children => listFileCount children

/-- Number of files in a tree, at every depth. -/
def listFileCount : List Inode → Nat
  | [] => 0
  | i :: rest => inodeFileCount i + listFileCount rest

end

/-! ## C6 — which failures are page-local -/

/-- C6 counterexample: an output-file creation failure while copying the
opaque file `a.txt` is not page-local: `copyFile` calls `log.Fatal`, the
run aborts, and the later file `b.md` is never processed. -/
theorem copy_failure_aborts_run :
    (walkFLDir { allOk with createOk := fun p => !(p == "public/a.txt") }
        id "n" "s" "content" "O"
        [Inode.file "a.txt" "x", Inode.file "b.md" "y"]).1 = none ∧
    (walkFLDir { allOk with createOk := fun p => !(p == "public/a.txt") }
        id "n" "s" "content" "O"
        [Inode.file "a.txt" "x", Inode.file "b.md" "y"]).2 =
      [Ev.readTpl "template/navigation.html", Ev.readTpl "template/static.html"] :=
  ⟨rfl, rfl⟩

theorem Render_md (o : IOOracle) (fe : Page → String) (p : Page) (hty : p.PType = "MD") :
    Render o fe p = ({ p with Footer := fe p }, renderMd o { p with Footer := fe p }) := by
  unfold Render
  split
  · rename_i h
    rw [hty] at h
    exact absurd h (by decide)
  · rfl
  · rename_i h1 h2
    exact absurd hty h2

theorem Render_html (o : IOOracle) (fe : Page → String) (p : Page)
    (hty : p.PType = "HTML") :
    Render o fe p = ({ p with Footer := fe p }, renderHtml o { p with Footer := fe p }) := by
  unfold Render
  split
  · rfl
  · rename_i h
    rw [hty] at h
    exact absurd h (by decide)
  · rename_i h1 h2
    exact absurd hty h1

theorem renderMd_skip (o : IOOracle) (q : Page) (hc : o.createOk q.OutPath = false) :
    renderMd o q = [Ev.renderSkip q.OutPath] := by
  unfold renderMd
  rw [if_neg (by rw [hc]; exact Bool.false_ne_true)]

theorem renderHtml_skip (o : IOOracle) (q : Page) (hp : o.parseOk q.Path = false) :
    renderHtml o q = [Ev.renderSkip q.OutPath] := by
  unfold renderHtml
  rw [if_neg (by rw [hp]; exact Bool.false_ne_true)]

/-- C6 (amended): an unreadable source during the walk and render-time
failures (output-file creation for a markdown page, template parse for a
templated-HTML page) are page-local — the file is skipped, the registry of
the remaining files is unchanged, and sibling pages render independently —
but an open/create/copy failure while copying an opaque file aborts the
entire run (shown by the counterexample). -/
theorem page_local_failures :
    (∀ (o : IOOracle) (md : String → String)
        (nav statics dirPath parent name content : String) (pre post : List Inode),
        o.readOk (dirPath ++ "/" ++ name) = false →
        (walkFLList o md nav statics dirPath parent
            (pre ++ Inode.file name content :: post)).1 =
          (walkFLList o md nav statics dirPath parent (pre ++ post)).1) ∧
    (∀ (o : IOOracle) (fe : Page → String) (p : Page),
        p.PType = "MD" → o.createOk p.OutPath = false →
        Render o fe p = ({ p with Footer := fe p }, [Ev.renderSkip p.OutPath])) ∧
    (∀ (o : IOOracle) (fe : Page → String) (p : Page),
        p.PType = "HTML" → o.parseOk p.Path = false →
        Render o fe p = ({ p with Footer := fe p }, [Ev.renderSkip p.OutPath])) ∧
    (∀ (o : IOOracle) (fe : Page → String) (m1 m2 : List (String × Page)),
        renderAll o fe (m1 ++ m2) =
          ((renderAll o fe m1).1 ++ (renderAll o fe m2).1,
           (renderAll o fe m1).2 ++ (renderAll o fe m2).2)) := by
  refine ⟨?_, ?_, ?_, ?_⟩
  · intro o md nav statics dirPath parent name content pre post h
    induction pre with
    | nil =>
      have hf : walkFLInode o md nav statics dirPath parent (Inode.file name content) =
          (some [], [Ev.skipRead (mapOutPath (dirPath ++ "/" ++ name))]) := by
        simp only [walkFLInode]
        rw [if_pos h]
      show (walkFLList o md nav statics dirPath parent
          (Inode.file name content :: post)).1 =
        (walkFLList o md nav statics dirPath parent post).1
      rw [walkFLList, hf]
      cases hp : walkFLList o md nav statics dirPath parent post with
      | mk r2 t2 => cases r2 <;> rfl
    | cons q pre2 ih =>
      show (walkFLList o md nav statics dirPath parent
          (q :: (pre2 ++ Inode.file name content :: post))).1 =
        (walkFLList o md nav statics dirPath parent (q :: (pre2 ++ post))).1
      rw [walkFLList, walkFLList]
      cases hq : walkFLInode o md nav statics dirPath parent q with
      | mk r1 t1 =>
        cases r1 with
        | none => rfl
        | some r =>
          cases hr1 : walkFLList o md nav statics dirPath parent
              (pre2 ++ Inode.file name content :: post) with
          | mk rr tt =>
            cases hr2 : walkFLList o md nav statics dirPath parent (pre2 ++ post) with
            | mk rr2 tt2 =>
              have heq := ih
              rw [hr1, hr2] at heq
              simp only at heq
              subst heq
              cases rr <;> rfl
  · intro o fe p hty hc
    rw [Render_md o fe p hty, renderMd_skip o { p with Footer := fe p } hc]
  · intro o fe p hty hp
    rw [Render_html o fe p hty, renderHtml_skip o { p with Footer := fe p } hp]
  · intro o fe m1 m2
    unfold renderAll
    rw [List.map_append, List.flatMap_append]

theorem page_local_failures_witness :
    (walkFLList { allOk with readOk := fun p => !(p == "content/a.md") }
        id "n" "s" "content" "O"
        ([] ++ Inode.file "a.md" "x" :: [Inode.file "b.md" "y"])).1 =
      (walkFLList { allOk with readOk := fun p => !(p == "content/a.md") }
        id "n" "s" "content" "O" ([] ++ [Inode.file "b.md" "y"])).1 ∧
    Render { allOk with createOk := fun _ => false } (fun _ => "f")
        (compileFile id "n" "s" "content" "O" "a.md" "x").2 =
      ({ (compileFile id "n" "s" "content" "O" "a.md" "x").2 with Footer := "f" },
       [Ev.renderSkip "public/a.html"]) :=
  ⟨page_local_failures.1 { allOk with readOk := fun p => !(p == "content/a.md") }
      id "n" "s" "content" "O" "a.md" "x" [] [Inode.file "b.md" "y"] (by decide),
   page_local_failures.2.1 { allOk with createOk := fun _ => false } (fun _ => "f")
      (compileFile id "n" "s" "content" "O" "a.md" "x").2 (by decide) (by decide)⟩

/-! ## C7 — template fragments: startup loads versus per-page reads -/

/-- Test for a read of the navigation partial. -/
def isNavRead (ev : Ev) : Bool := ev == Ev.readTpl "template/navigation.html"

mutual

theorem walkFLInode_allOk (md : String → String) (nav statics : String) :
    ∀ (i : Inode) (dirPath parent : String),
      (walkFLInode allOk md nav statics dirPath parent i).1.isSome = true ∧
      ((walkFLInode allOk md nav statics dirPath parent i).2.filter isNavRead).length =
        inodeFileCount i
  | .file name content, dirPath, parent => by
      simp only [walkFLInode]
      rw [if_neg (fun h => Bool.noConfusion h), if_neg (fun h => Bool.noConfusion h),
        if_neg (fun h => Bool.noConfusion h)]
      by_cases h1 : goExt name == ".html"
      · rw [if_pos h1]
        exact ⟨rfl, rfl⟩
      · rw [if_neg h1]
        by_cases h2 : goExt name == ".md"
        · rw [if_pos h2]
          exact ⟨rfl, rfl⟩
        · rw [if_neg h2, if_neg (fun h => Bool.noConfusion h),
            if_neg (fun h => Bool.noConfusion h), if_neg (fun h => Bool.noConfusion h)]
          exact ⟨rfl, rfl⟩
  | .dir name children, dirPath, parent => by
      simp only [walkFLInode]
      rw [if_neg (fun h => Bool.noConfusion h), if_neg (fun h => Bool.noConfusion h)]
      exact walkFLList_allOk md nav statics children (dirPath ++ "/" ++ name)
        (if dirPath == "content" then parent else dirPath)

theorem walkFLList_allOk (md : String → String) (nav statics : String) :
    ∀ (l : List Inode) (dirPath parent : String),
      (walkFLList allOk md nav statics dirPath parent l).1.isSome = true ∧
      ((walkFLList allOk md nav statics dirPath parent l).2.filter isNavRead).length =
        listFileCount l
  | [], _, _ => ⟨rfl, rfl⟩
  | i :: rest, dirPath, parent => by
      obtain ⟨hs1, hc1⟩ := walkFLInode_allOk md nav statics i dirPath parent
      obtain ⟨hs2, hc2⟩ := walkFLList_allOk md nav statics rest dirPath parent
      rw [walkFLList]
      cases hw : walkFLInode allOk md nav statics dirPath parent i with
      | mk r1 t1 =>
        rw [hw] at hs1 hc1
        cases r1 with
        | none => cases hs1
        | some r =>
          cases hl : walkFLList allOk md nav statics dirPath parent rest with
          | mk r2 t2 =>
            rw [hl] at hs2 hc2
            cases r2 with
            | none => cases hs2
            | some rr =>
              refine ⟨rfl, ?_⟩
              simp only at hc1 hc2
              rw [show listFileCount (i :: rest) =
                inodeFileCount i + listFileCount rest from rfl]
              simp only [List.filter_append, List.length_append, hc1, hc2]

end

theorem walkFLDir_allOk (md : String → String) (nav statics dirPath parent : String)
    (children : List Inode) :
    (walkFLDir allOk md nav statics dirPath parent children).1.isSome = true ∧
    ((walkFLDir allOk md nav statics dirPath parent children).2.filter isNavRead).length =
      listFileCount children := by
  unfold walkFLDir
  rw [if_neg (fun h => Bool.noConfusion h)]
  exact walkFLList_allOk md nav statics children dirPath parent

theorem backlinkPass_no_navRead (ext : String → List String)
    (m : List (String × Page)) :
    ∀ ev ∈ (backlinkPass ext m).2, isNavRead ev = false := by
  intro ev hev
  refine backlinkPass_go_events ext (fun ev => isNavRead ev = false) (fun _ => True)
    ?_ m m [] (fun _ _ => trivial) (by intro x h; cases h) ev hev
  intro st e _ _ ev2 hev2
  rcases resolvePage_events_cases ext st e.2 ev2 hev2 with ⟨t, rfl⟩ | ⟨q, rfl⟩ <;> rfl

theorem renderMd_no_navRead (o : IOOracle) (p : Page) :
    ∀ ev ∈ renderMd o p, isNavRead ev = false := by
  intro ev hev
  unfold renderMd at hev
  by_cases h1 : o.createOk p.OutPath
  · rw [if_pos h1] at hev
    by_cases h2 : o.execOk p.OutPath
    · rw [if_pos h2] at hev
      rcases List.mem_singleton.mp hev with rfl
      rfl
    · rw [if_neg h2] at hev
      rcases List.mem_singleton.mp hev with rfl
      rfl
  · rw [if_neg h1] at hev
    rcases List.mem_singleton.mp hev with rfl
    rfl

theorem renderHtml_no_navRead (o : IOOracle) (p : Page) :
    ∀ ev ∈ renderHtml o p, isNavRead ev = false := by
  intro ev hev
  unfold renderHtml at hev
  by_cases h0 : o.parseOk p.Path
  · rw [if_pos h0] at hev
    by_cases h1 : o.createOk p.OutPath
    · rw [if_pos h1] at hev
      by_cases h2 : o.execOk p.OutPath
      · rw [if_pos h2] at hev
        rcases List.mem_singleton.mp hev with rfl
        rfl
      · rw [if_neg h2] at hev
        rcases List.mem_singleton.mp hev with rfl
        rfl
    · rw [if_neg h1] at hev
      rcases List.mem_singleton.mp hev with rfl
      rfl
  · rw [if_neg h0] at hev
    rcases List.mem_singleton.mp hev with rfl
    rfl

theorem Render_no_navRead (o : IOOracle) (fe : Page → String) (p : Page) :
    ∀ ev ∈ (Render o fe p).2, isNavRead ev = false := by
  intro ev hev
  unfold Render at hev
  split at hev
  · exact renderHtml_no_navRead o _ ev hev
  · exact renderMd_no_navRead o _ ev hev
  · cases hev

theorem renderAll_no_navRead (o : IOOracle) (fe : Page → String)
    (m : List (String × Page)) :
    ∀ ev ∈ (renderAll o fe m).2, isNavRead ev = false := by
  intro ev hev
  unfold renderAll at hev
  simp only [List.mem_flatMap] at hev
  obtain ⟨e, _, hev2⟩ := hev
  exact Render_no_navRead o fe e.2 ev hev2

/-- C7 counterexample: in an all-success run over two markdown pages the
navigation partial is read twice, during the walk (once per page), not
once at startup; and its absence is not fatal at startup — the run still
completes (the two pages are merely skipped). -/
theorem fragments_reread_counterexample :
    ((mainFL allOk id extractHrefs (fun _ => "f") "n" "s" "O"
        [Inode.file "a.md" "x", Inode.file "b.md" "y"]).2.filter isNavRead).length = 2 ∧
    (mainFL { allOk with navOk := false } id extractHrefs (fun _ => "f") "n" "s" "O"
        [Inode.file "a.md" "x", Inode.file "b.md" "y"]).1.isSome = true := by
  exact ⟨by decide, by decide⟩

/-- C7 (amended): only the markdown layout and the footer fragment are
loaded once at startup, and only their absence is fatal before any
processing; the navigation and static-import fragments are read again for
every file during the walk — in an all-success run the navigation partial
is read exactly once per file of the tree. -/
theorem startup_templates_amended :
    (∀ (o : IOOracle) (md : String → String) (ext : String → List String)
        (fe : Page → String) (nav statics top : String) (tree : List Inode),
        o.mdTplOk = false →
        mainFL o md ext fe nav statics top tree =
          (none, [Ev.tplFail "template/markdown.html"])) ∧
    (∀ (o : IOOracle) (md : String → String) (ext : String → List String)
        (fe : Page → String) (nav statics top : String) (tree : List Inode),
        o.mdTplOk = true → o.footerTplOk = false →
        mainFL o md ext fe nav statics top tree =
          (none, [Ev.readTpl "template/markdown.html",
            Ev.tplFail "template/footer.html"])) ∧
    (∀ (md : String → String) (ext : String → List String) (fe : Page → String)
        (nav statics top : String) (tree : List Inode),
        ((mainFL allOk md ext fe nav statics top tree).2.filter isNavRead).length =
          listFileCount tree) := by
  refine ⟨?_, ?_, ?_⟩
  · intro o md ext fe nav statics top tree h
    unfold mainFL
    rw [if_pos h]
  · intro o md ext fe nav statics top tree h1 h2
    unfold mainFL
    rw [if_neg (fun hcon => by rw [h1] at hcon; exact Bool.noConfusion hcon), if_pos h2]
  · intro md ext fe nav statics top tree
    obtain ⟨hs, hc⟩ := walkFLDir_allOk md nav statics "content" top tree
    unfold mainFL
    rw [if_neg (fun h => Bool.noConfusion h), if_neg (fun h => Bool.noConfusion h)]
    cases hw : walkFLDir allOk md nav statics "content" top tree with
    | mk reg t =>
      rw [hw] at hs hc
      cases reg with
      | none => cases hs
      | some reg2 =>
        simp only at hc
        simp only [List.filter_append, List.length_append]
        have hbl : ((backlinkPass ext (dedupLast reg2)).2.filter isNavRead).length = 0 := by
          rw [List.length_eq_zero]
          rw [List.filter_eq_nil_iff]
          intro a ha
          simp [backlinkPass_no_navRead ext (dedupLast reg2) a ha]
        have hrd : ((renderAll allOk fe
            (backlinkPass ext (dedupLast reg2)).1).2.filter isNavRead).length = 0 := by
          rw [List.length_eq_zero]
          rw [List.filter_eq_nil_iff]
          intro a ha
          simp [renderAll_no_navRead allOk fe _ a ha]
        rw [hc, hbl, hrd]
        show 0 + listFileCount tree + 0 + 0 = listFileCount tree
        omega

theorem startup_templates_amended_witness :
    mainFL { allOk with mdTplOk := false } id extractHrefs (fun _ => "f") "n" "s" "O"
        [Inode.file "a.md" "x"] =
      (none, [Ev.tplFail "template/markdown.html"]) ∧
    ((mainFL allOk id extractHrefs (fun _ => "f") "n" "s" "O"
        [Inode.file "a.md" "x"]).2.filter isNavRead).length = listFileCount
      [Inode.file "a.md" "x"] :=
  ⟨startup_templates_amended.1 { allOk with mdTplOk := false } id extractHrefs
      (fun _ => "f") "n" "s" "O" [Inode.file "a.md" "x"] rfl,
   startup_templates_amended.2.2 id extractHrefs (fun _ => "f") "n" "s" "O"
      [Inode.file "a.md" "x"]⟩

/-! ## The happy-path walk is the all-success projection of the
failure-injected walk -/

mutual

theorem walkFLInode_allOk_fst (md : String → String) (nav statics : String) :
    ∀ (i : Inode) (dirPath parent : String),
      (walkFLInode allOk md nav statics dirPath parent i).1 =
        some (walkInode md nav statics dirPath parent i)
  | .file name content, dirPath, parent => by
      simp only [walkFLInode]
      rw [if_neg (fun h => Bool.noConfusion h), if_neg (fun h => Bool.noConfusion h),
        if_neg (fun h => Bool.noConfusion h)]
      by_cases h1 : goExt name == ".html"
      · rw [if_pos h1]
        rfl
      · rw [if_neg h1]
        by_cases h2 : goExt name == ".md"
        · rw [if_pos h2]
          rfl
        · rw [if_neg h2, if_neg (fun h => Bool.noConfusion h),
            if_neg (fun h => Bool.noConfusion h), if_neg (fun h => Bool.noConfusion h)]
          rfl
  | .dir name children, dirPath, parent => by
      simp only [walkFLInode]
      rw [if_neg (fun h => Bool.noConfusion h), if_neg (fun h => Bool.noConfusion h)]
      exact walkFLList_allOk_fst md nav statics children (dirPath ++ "/" ++ name)
        (if dirPath == "content" then parent else dirPath)

theorem walkFLList_allOk_fst (md : String → String) (nav statics : String) :
    ∀ (l : List Inode) (dirPath parent : String),
      (walkFLList allOk md nav statics dirPath parent l).1 =
        some (walkList md nav statics dirPath parent l)
  | [], _, _ => rfl
  | i :: rest, dirPath, parent => by
      have h1 := walkFLInode_allOk_fst md nav statics i dirPath parent
      have h2 := walkFLList_allOk_fst md nav statics rest dirPath parent
      rw [walkFLList]
      cases hw : walkFLInode allOk md nav statics dirPath parent i with
      | mk r1 t1 =>
        rw [hw] at h1
        simp only at h1
        subst h1
        cases hl : walkFLList allOk md nav statics dirPath parent rest with
        | mk r2 t2 =>
          rw [hl] at h2
          simp only at h2
          subst h2
          rfl

end

/-- With every operation succeeding, the failure-injected walk computes
exactly the registry of the happy-path walk used above. -/
theorem walkFLDir_allOk_fst (md : String → String) (nav statics top : String)
    (tree : List Inode) :
    (walkFLDir allOk md nav statics "content" top tree).1 =
      some (walkList md nav statics "content" top tree) := by
  unfold walkFLDir
  rw [if_neg (fun h => Bool.noConfusion h)]
  exact walkFLList_allOk_fst md nav statics tree "content" top

end Gen
